import Mathlib

/-!
Verification of the buffer layer of the uninit-tools library.

The development shallowly embeds `src/buffer.rs` (the `Buffer` and `BufferRef`
types together with their operations), plus the parts of `BufferInitializer`
that `buffer.rs` relies on.  The file `src/initializer.rs` is declared in
`lib.rs` but absent from the sources, so the `BufferInitializer` operations are
modelled from the specification (each such definition is marked in its doc
comment).

Modelling conventions:
* a `MaybeUninit<Item>` memory slot is `Option α` (`none` = uninitialized);
* a contiguous region is a `List (Option α)`; `usize` counters are `Nat`, with
  the wrapping arithmetic that the source spells out (`wrapping_sub`,
  `wrapping_add`) performed modulo `2 ^ 64`;
* operations that `assert!` (and hence abort on failure) return `Option`,
  `none` standing for the abort; the source asserts before performing any
  write, so a `none` result corresponds to a run in which no cursor and no
  memory slot was modified;
* `&mut`-based mutation becomes explicit state passing.
-/

/-- Number of values of the 64-bit `usize` type. -/
def USIZE : Nat := 2 ^ 64

/-- Rust `usize::wrapping_sub` on values below `USIZE`. -/
def wrappingSub (a b : Nat) : Nat := (a + USIZE - b % USIZE) % USIZE

/-- Rust `usize::wrapping_add`. -/
def wrappingAdd (a b : Nat) : Nat := (a + b) % USIZE

/-- `cast_init_to_uninit_slice` from `lib.rs`: view initialized items as
possibly-uninitialized slots. -/
def castInitToUninitSlice (s : List α) : List (Option α) := s.map some

/-- `cast_uninit_to_init_slice` from `lib.rs`: read possibly-uninitialized
slots as initialized items.  In Rust, reading an uninitialized slot this way is
undefined behavior (the caller's safety obligation); the model maps such a slot
to `default`. -/
def castUninitToInitSlice [Inhabited α] (s : List (Option α)) : List α :=
  s.map fun o => o.getD default

/-- The initialization tracker from the (missing) `initializer.rs`: one
container plus the `items_initialized` cursor. -/
structure BufferInitializer (α : Type) where
  inner : List (Option α)
  items_initialized : Nat

/-- Modelled from the spec: `uninit` wraps a container with the initialization
cursor set to 0 ("`uninit` sets both to 0"). -/
def BufferInitializer.uninit (inner : List (Option α)) : BufferInitializer α :=
  { inner := inner, items_initialized := 0 }

/-- Modelled from the spec: the container's whole storage viewed as a
possibly-uninitialized region (the `all_uninit` accessor used by
`buffer.rs`). -/
def BufferInitializer.all_uninit (bi : BufferInitializer α) : List (Option α) :=
  bi.inner

/-- Modelled from the spec: `capacity()` is the region length, fixed for the
tracker's lifetime. -/
def BufferInitializer.capacity (bi : BufferInitializer α) : Nat :=
  bi.inner.length

/-- Modelled from the spec: `advance_to_end` (unsafe) sets
`items_initialized = capacity` without writing anything. -/
def BufferInitializer.advance_to_end (bi : BufferInitializer α) : BufferInitializer α :=
  { bi with items_initialized := bi.capacity }

/-- Modelled from the spec: `new` wraps an already-initialized container
(through the `AsUninit` view, i.e. `cast_init_to_uninit_slice`) with the
initialization cursor at capacity. -/
def BufferInitializer.new (init : List α) : BufferInitializer α :=
  (BufferInitializer.uninit (castInitToUninitSlice init)).advance_to_end

/-- Modelled from the spec: `uninit_part()` is the remainder of the region
beyond `items_initialized`. -/
def BufferInitializer.uninit_part (bi : BufferInitializer α) : List (Option α) :=
  bi.inner.drop bi.items_initialized

/-- `Buffer` from `buffer.rs`: an initializer plus the `items_filled` cursor. -/
structure Buffer (α : Type) where
  initializer : BufferInitializer α
  items_filled : Nat

/-- `Buffer::from_initializer`: wraps an initializer with `items_filled: 0`. -/
def Buffer.from_initializer (initializer : BufferInitializer α) : Buffer α :=
  { initializer := initializer, items_filled := 0 }

/-- `Buffer::uninit`. -/
def Buffer.uninit (inner : List (Option α)) : Buffer α :=
  Buffer.from_initializer (BufferInitializer.uninit inner)

/-- `Buffer::new` (via `Buffer<AsUninit<T>>`): wraps an already-initialized
container. -/
def Buffer.new (init : List α) : Buffer α :=
  Buffer.from_initializer (BufferInitializer.new init)

/-- `Buffer::from_slice_mut`: `BufferInitializer::new`, then (unsafely)
`advance_to_end`, then `from_initializer`. -/
def Buffer.from_slice_mut (slice : List α) : Buffer α :=
  Buffer.from_initializer (BufferInitializer.new slice).advance_to_end

/-- `Buffer::capacity`. -/
def Buffer.capacity (b : Buffer α) : Nat := b.initializer.capacity

/-- `Buffer::remaining`: `capacity().wrapping_sub(items_filled)`. -/
def Buffer.remaining (b : Buffer α) : Nat :=
  wrappingSub b.capacity b.items_filled

/-- `Buffer::is_full`. -/
def Buffer.is_full (b : Buffer α) : Bool := b.items_filled == b.capacity

/-- `Buffer::is_empty`. -/
def Buffer.is_empty (b : Buffer α) : Bool := b.items_filled == 0

/-- `Buffer::filled_part`: the first `items_filled` slots of `all_uninit`,
cast to items. -/
def Buffer.filled_part [Inhabited α] (b : Buffer α) : List α :=
  castUninitToInitSlice (b.initializer.all_uninit.take b.items_filled)

/-- `Buffer::unfilled_part`: pointer advanced by `items_filled`, with length
`orig_len.wrapping_sub(items_filled)`. -/
def Buffer.unfilled_part (b : Buffer α) : List (Option α) :=
  (b.initializer.all_uninit.drop b.items_filled).take
    (wrappingSub b.initializer.all_uninit.length b.items_filled)

/-- `Buffer::unfilled_init_part`: pointer advanced by `items_filled`, with
length `items_initialized.wrapping_sub(items_filled)`, cast to items. -/
def Buffer.unfilled_init_part [Inhabited α] (b : Buffer α) : List α :=
  castUninitToInitSlice
    ((b.initializer.all_uninit.drop b.items_filled).take
      (wrappingSub b.initializer.items_initialized b.items_filled))

/-- `Buffer::unfilled_uninit_part`: delegates to the initializer's
`uninit_part`. -/
def Buffer.unfilled_uninit_part (b : Buffer α) : List (Option α) :=
  b.initializer.uninit_part

/-- `BufferParts` from `buffer.rs`. -/
structure BufferParts (α : Type) where
  filled_part : List α
  unfilled_init_part : List α
  unfilled_uninit_part : List (Option α)

/-- `Buffer::all_parts`. -/
def Buffer.all_parts [Inhabited α] (b : Buffer α) : BufferParts α :=
  { filled_part := b.filled_part
    unfilled_init_part := b.unfilled_init_part
    unfilled_uninit_part := b.unfilled_uninit_part }

/-- `Buffer::assume_init` (unsafe): `items_filled += count`, then
`items_initialized = max(items_filled, items_initialized)`.  The `+` cannot
overflow whenever the documented precondition (each of the first
`items_filled + count` slots is actually initialized, hence the sum is at most
the capacity, a `usize`) is upheld. -/
def Buffer.assume_init (b : Buffer α) (count : Nat) : Buffer α :=
  { b with
    items_filled := b.items_filled + count
    initializer := { b.initializer with
      items_initialized := max (b.items_filled + count) b.initializer.items_initialized } }

/-- `Buffer::assume_init_all` (unsafe): both cursors set to capacity. -/
def Buffer.assume_init_all (b : Buffer α) : Buffer α :=
  { b with
    items_filled := b.capacity
    initializer := { b.initializer with items_initialized := b.capacity } }

/-- The region contents after `append`'s copy step
(`unfilled_part_mut()[..slice.len()].copy_from_slice(...)`): `slice` is written
into the slots `items_filled .. items_filled + slice.len()`. -/
def Buffer.appendWritten (b : Buffer α) (slice : List α) : List (Option α) :=
  b.initializer.inner.take b.items_filled ++ castInitToUninitSlice slice ++
    b.initializer.inner.drop (b.items_filled + slice.length)

/-- `Buffer::append`: asserts `slice.len() <= unfilled_part_mut().len()` (that
length being `orig_len.wrapping_sub(items_filled)`), copies `slice` into the
head of the unfilled part, then calls `assume_init(slice.len())`.  The assert
precedes the copy, so the `none` (abort) branch performs no write at all. -/
def Buffer.append (b : Buffer α) (slice : List α) : Option (Buffer α) :=
  if slice.length ≤ wrappingSub b.initializer.all_uninit.length b.items_filled then
    some (Buffer.assume_init
      { b with initializer := { b.initializer with inner := b.appendWritten slice } }
      slice.length)
  else
    none

/-- `Buffer::advance`: asserts
`items_initialized.wrapping_sub(items_filled) >= count`, then
`items_filled = items_filled.wrapping_add(count)`. -/
def Buffer.advance (b : Buffer α) (count : Nat) : Option (Buffer α) :=
  if wrappingSub b.initializer.items_initialized b.items_filled ≥ count then
    some { b with items_filled := wrappingAdd b.items_filled count }
  else
    none

/-- `Buffer::advance_to_init_part`: `items_filled = items_initialized`. -/
def Buffer.advance_to_init_part (b : Buffer α) : Buffer α :=
  { b with items_filled := b.initializer.items_initialized }

/-- `Buffer::fill_by_repeating`: fills the whole unfilled part with `item`
(`fill_uninit_slice` on `unfilled_part_mut()`), then `assume_init_all`. -/
def Buffer.fill_by_repeating (b : Buffer α) (item : α) : Buffer α :=
  let written :=
    b.initializer.inner.take b.items_filled ++
      (b.initializer.inner.drop b.items_filled).map (fun _ => some item)
  Buffer.assume_init_all
    { b with initializer := { b.initializer with inner := written } }

/-- A single write `filled_part_mut()[i] = v` (likewise for the other `_mut`
views): stores `v` into slot `i` of the region without touching either
cursor. -/
def Buffer.write_filled (b : Buffer α) (i : Nat) (v : α) : Buffer α :=
  { b with initializer := { b.initializer with
      inner := b.initializer.inner.set i (some v) } }

mutual

/-- `Buffer::revert_to_start` as written in `buffer.rs`:
`self.by_ref().revert_to_start()`, i.e. it calls `BufferRef::revert_to_start`
on a `BufferRef` borrowing the very same buffer.  The recursion is modelled
with explicit fuel; `none` means the computation did not complete within the
given fuel. -/
def Buffer.revert_to_start_fuel (fuel : Nat) (b : Buffer α) : Option (Buffer α) :=
  match fuel with
  | 0 => none
  | Nat.succ n => BufferRef.revert_to_start_fuel n b

/-- `BufferRef::revert_to_start` as written in `buffer.rs`:
`self.inner.revert_to_start()`, i.e. it calls `Buffer::revert_to_start` right
back on the borrowed buffer. -/
def BufferRef.revert_to_start_fuel (fuel : Nat) (b : Buffer α) : Option (Buffer α) :=
  match fuel with
  | 0 => none
  | Nat.succ n => Buffer.revert_to_start_fuel n b

end

/-- `Buffer::appendAll`: perform a sequence of `append` calls in order,
aborting as soon as one fails. -/
def Buffer.appendAll (b : Buffer α) (slices : List (List α)) : Option (Buffer α) :=
  match slices with
  | [] => some b
  | s :: rest =>
    match Buffer.append b s with
    | some b1 => Buffer.appendAll b1 rest
    | none => none

/-- Total length of a sequence of slices. -/
def totalLen (slices : List (List α)) : Nat := (slices.map List.length).sum

/-! ## Arithmetic and casting helper lemmas -/

lemma USIZE_pos : 0 < USIZE := by decide

lemma wrappingSub_eq_sub {a b : Nat} (h1 : b ≤ a) (h2 : a < USIZE) :
    wrappingSub a b = a - b := by
  have hb : b % USIZE = b := Nat.mod_eq_of_lt (lt_of_le_of_lt h1 h2)
  unfold wrappingSub
  rw [hb]
  have h3 : a + USIZE - b = a - b + USIZE := by omega
  rw [h3, Nat.add_mod_right]
  exact Nat.mod_eq_of_lt (by omega)

lemma wrappingAdd_eq_add {a b : Nat} (h : a + b < USIZE) :
    wrappingAdd a b = a + b := Nat.mod_eq_of_lt h

lemma castUninitToInitSlice_castInitToUninitSlice [Inhabited α] (s : List α) :
    castUninitToInitSlice (castInitToUninitSlice s) = s := by
  unfold castUninitToInitSlice castInitToUninitSlice
  rw [List.map_map]
  have h : ((fun o => Option.getD o default) ∘ some) = fun a : α => a := by
    funext a
    simp
  rw [h, List.map_id']

lemma castUninitToInitSlice_length [Inhabited α] (s : List (Option α)) :
    (castUninitToInitSlice s).length = s.length := by
  unfold castUninitToInitSlice
  simp

lemma castUninitToInitSlice_append [Inhabited α] (s t : List (Option α)) :
    castUninitToInitSlice (s ++ t) = castUninitToInitSlice s ++ castUninitToInitSlice t := by
  unfold castUninitToInitSlice
  simp

/-! ## C1: `revert_to_start` -/

lemma revert_to_start_fuel_none (fuel : Nat) (b : Buffer α) :
    Buffer.revert_to_start_fuel fuel b = none ∧
      BufferRef.revert_to_start_fuel fuel b = none := by
  induction fuel with
  | zero => exact ⟨rfl, rfl⟩
  | succ n ih =>
    constructor
    · show BufferRef.revert_to_start_fuel n b = none
      exact ih.2
    · show Buffer.revert_to_start_fuel n b = none
      exact ih.1

/-- C1: the claim says `revert_to_start()` terminates with `items_filled() = 0`
and `items_initialized()` unchanged.  In the code, `Buffer::revert_to_start`
calls `BufferRef::revert_to_start`, which immediately calls
`Buffer::revert_to_start` back on the same buffer: the recursion never bottoms
out, so the call never completes — for every amount of fuel the fuel-indexed
model of the call returns `none`, i.e. no post-state (in particular no state
with `items_filled = 0`) is ever produced. -/
theorem revert_to_start_never_terminates (α : Type) (fuel : Nat) (b : Buffer α) :
    Buffer.revert_to_start_fuel fuel b = none :=
  (revert_to_start_fuel_none fuel b).1

/-! ## Behavior of a successful `append` -/

lemma append_step [Inhabited α] (b : Buffer α) (s : List α)
    (hle : b.items_filled + s.length ≤ b.capacity) (hcap : b.capacity < USIZE) :
    ∃ c, Buffer.append b s = some c ∧
      c.capacity = b.capacity ∧
      c.items_filled = b.items_filled + s.length ∧
      c.initializer.items_initialized
        = max (b.items_filled + s.length) b.initializer.items_initialized ∧
      c.filled_part = b.filled_part ++ s := by
  have hcapeq : b.initializer.all_uninit.length = b.capacity := rfl
  have hfl : b.items_filled ≤ b.capacity := Nat.le_trans (Nat.le_add_right _ _) hle
  have hguard : s.length ≤ wrappingSub b.initializer.all_uninit.length b.items_filled := by
    rw [hcapeq, wrappingSub_eq_sub hfl hcap]
    omega
  have hlen : b.initializer.inner.length = b.capacity := rfl
  have hA : (b.initializer.inner.take b.items_filled).length = b.items_filled := by
    rw [List.length_take, hlen]
    omega
  have hB : (castInitToUninitSlice s).length = s.length := by
    unfold castInitToUninitSlice
    exact List.length_map s some
  refine ⟨Buffer.assume_init
    { b with initializer := { b.initializer with inner := b.appendWritten s } }
    s.length, ?_, ?_, rfl, rfl, ?_⟩
  · unfold Buffer.append
    rw [if_pos hguard]
  · show (b.appendWritten s).length = b.capacity
    unfold Buffer.appendWritten
    rw [List.length_append, List.length_append, hA, hB, List.length_drop, hlen]
    omega
  · show castUninitToInitSlice ((b.appendWritten s).take (b.items_filled + s.length))
      = b.filled_part ++ s
    unfold Buffer.appendWritten
    have htl : ((b.initializer.inner.take b.items_filled ++ castInitToUninitSlice s) ++
        b.initializer.inner.drop (b.items_filled + s.length)).take (b.items_filled + s.length)
        = b.initializer.inner.take b.items_filled ++ castInitToUninitSlice s :=
      List.take_left' (by rw [List.length_append, hA, hB])
    rw [htl, castUninitToInitSlice_append, castUninitToInitSlice_castInitToUninitSlice]
    rfl

lemma appendAll_spec [Inhabited α] :
    ∀ (slices : List (List α)) (b : Buffer α),
      b.initializer.items_initialized = b.items_filled →
      b.items_filled + totalLen slices ≤ b.capacity →
      b.capacity < USIZE →
      ∃ c, Buffer.appendAll b slices = some c ∧
        c.capacity = b.capacity ∧
        c.items_filled = b.items_filled + totalLen slices ∧
        c.initializer.items_initialized = c.items_filled ∧
        c.filled_part = b.filled_part ++ slices.flatten := by
  intro slices
  induction slices with
  | nil =>
    intro b hinit hle hcap
    refine ⟨b, rfl, rfl, ?_, hinit, ?_⟩
    · show b.items_filled = b.items_filled + totalLen []
      unfold totalLen
      simp
    · simp
  | cons s rest ih =>
    intro b hinit hle hcap
    have htot : totalLen (s :: rest) = s.length + totalLen rest := by
      unfold totalLen
      simp
    have hle1 : b.items_filled + s.length ≤ b.capacity := by omega
    obtain ⟨c1, happ, hcap1, hfill1, hinit1, hpart1⟩ := append_step b s hle1 hcap
    have hinit1' : c1.initializer.items_initialized = c1.items_filled := by
      rw [hinit1, hfill1, hinit]
      omega
    have hle2 : c1.items_filled + totalLen rest ≤ c1.capacity := by
      rw [hfill1, hcap1]
      omega
    obtain ⟨c, hall, hcapc, hfillc, hinitc, hpartc⟩ :=
      ih c1 hinit1' hle2 (hcap1 ▸ hcap)
    refine ⟨c, ?_, ?_, ?_, hinitc, ?_⟩
    · unfold Buffer.appendAll
      rw [happ]
      exact hall
    · rw [hcapc, hcap1]
    · rw [hfillc, hfill1, htot]
      omega
    · rw [hpartc, hpart1]
      simp

/-- C5: for every sequence of slices of total length at most 32 appended in
order into an initially empty 32-slot buffer, all appends succeed,
`filled_part()` is the concatenation of the appended slices, `items_filled()`
is the total appended length, and `remaining()` is `32` minus that total;
moreover (second conjunct) each successful `append` from a state whose filled
and initialized cursors agree — as they do after every step of this scenario —
advances both cursors by exactly the appended slice's length. -/
theorem append_sequence_correct (α : Type) [Inhabited α] (slices : List (List α))
    (h : totalLen slices ≤ 32) :
    (∃ c, Buffer.appendAll (Buffer.uninit (List.replicate 32 (none : Option α))) slices
        = some c ∧
      c.filled_part = slices.flatten ∧
      c.items_filled = totalLen slices ∧
      c.initializer.items_initialized = totalLen slices ∧
      c.remaining = 32 - totalLen slices) ∧
    (∀ (b : Buffer α) (s : List α) (c : Buffer α),
      b.initializer.items_initialized = b.items_filled →
      Buffer.append b s = some c →
      c.items_filled = b.items_filled + s.length ∧
      c.initializer.items_initialized = b.initializer.items_initialized + s.length) := by
  constructor
  · have hcap0 : (Buffer.uninit (List.replicate 32 (none : Option α))).capacity = 32 := by
      simp [Buffer.uninit, Buffer.from_initializer, BufferInitializer.uninit,
        Buffer.capacity, BufferInitializer.capacity]
    have hfill0 : (Buffer.uninit (List.replicate 32 (none : Option α))).items_filled = 0 := rfl
    have hinit0 : (Buffer.uninit (List.replicate 32 (none : Option α))).initializer.items_initialized
        = (Buffer.uninit (List.replicate 32 (none : Option α))).items_filled := rfl
    have hle : (Buffer.uninit (List.replicate 32 (none : Option α))).items_filled + totalLen slices
        ≤ (Buffer.uninit (List.replicate 32 (none : Option α))).capacity := by
      rw [hfill0, hcap0]
      omega
    have hcaplt : (Buffer.uninit (List.replicate 32 (none : Option α))).capacity < USIZE := by
      rw [hcap0]
      decide
    obtain ⟨c, hall, hcapc, hfillc, hinitc, hpartc⟩ :=
      appendAll_spec slices (Buffer.uninit (List.replicate 32 (none : Option α))) hinit0 hle hcaplt
    have hpart0 : (Buffer.uninit (List.replicate 32 (none : Option α))).filled_part = [] := rfl
    refine ⟨c, hall, ?_, ?_, ?_, ?_⟩
    · rw [hpartc, hpart0]
      simp
    · rw [hfillc, hfill0]
      omega
    · rw [hinitc, hfillc, hfill0]
      omega
    · unfold Buffer.remaining
      rw [hcapc, hcap0, hfillc, hfill0]
      have : totalLen slices < USIZE := by
        have h32 : (32 : Nat) < USIZE := by decide
        omega
      rw [wrappingSub_eq_sub (by omega) (by decide)]
      omega
  · intro b s c hinit happ
    unfold Buffer.append at happ
    split at happ
    · simp only [Option.some.injEq] at happ
      subst happ
      refine ⟨rfl, ?_⟩
      show max (b.items_filled + s.length) b.initializer.items_initialized
          = b.initializer.items_initialized + s.length
      rw [hinit]
      omega
    · exact absurd happ (by simp)

/-! ## C2: the cursor invariant over all reachable buffer states -/

/-- Buffer states reachable from a freshly constructed buffer by the public
operations, with the documented preconditions of the unsafe operations upheld.
Base cases are the constructors (`uninit`, `new`, `from_slice_mut`,
`from_uninit_slice_mut` coincides with `uninit`, and `from_initializer` for any
initializer obeying its own cursor invariant); each region has a `usize`
length.  Steps are the mutating operations of `Buffer` (and hence of
`BufferRef`, whose operations all delegate): successful `append` and `advance`,
`advance_to_init_part`, `assume_init` (precondition: the slots being marked
exist, so the new filled cursor is at most the capacity), `assume_init_all`,
`fill_by_repeating` (and `fill_by_zeroing`), in-place writes through the
mutable views, mutation of the initializer through `initializer_mut()` (per the
spec the initialization cursor only moves forward and stays within the
unchanged capacity), and `revert_to_start` with its specified semantics of
resetting the filled cursor to 0 (the code as written diverges instead — see
`revert_to_start_never_terminates` — so this step only adds states). -/
inductive Reachable {α : Type} : Buffer α → Prop where
  | mk_uninit (inner : List (Option α)) (h : inner.length < USIZE) :
      Reachable (Buffer.uninit inner)
  | mk_new (s : List α) (h : s.length < USIZE) :
      Reachable (Buffer.new s)
  | mk_from_slice_mut (s : List α) (h : s.length < USIZE) :
      Reachable (Buffer.from_slice_mut s)
  | mk_from_initializer (bi : BufferInitializer α)
      (h1 : bi.items_initialized ≤ bi.capacity) (h2 : bi.capacity < USIZE) :
      Reachable (Buffer.from_initializer bi)
  | step_append (b : Buffer α) (s : List α) (c : Buffer α)
      (hr : Reachable b) (h : Buffer.append b s = some c) : Reachable c
  | step_advance (b : Buffer α) (n : Nat) (c : Buffer α)
      (hr : Reachable b) (h : Buffer.advance b n = some c) : Reachable c
  | step_advance_to_init_part (b : Buffer α) (hr : Reachable b) :
      Reachable (Buffer.advance_to_init_part b)
  | step_assume_init (b : Buffer α) (n : Nat)
      (hr : Reachable b) (h : b.items_filled + n ≤ b.capacity) :
      Reachable (Buffer.assume_init b n)
  | step_assume_init_all (b : Buffer α) (hr : Reachable b) :
      Reachable (Buffer.assume_init_all b)
  | step_fill_by_repeating (b : Buffer α) (item : α) (hr : Reachable b) :
      Reachable (Buffer.fill_by_repeating b item)
  | step_write (b : Buffer α) (i : Nat) (v : α) (hr : Reachable b) :
      Reachable (Buffer.write_filled b i v)
  | step_initializer_mut (b : Buffer α) (bi : BufferInitializer α)
      (hr : Reachable b)
      (h1 : b.initializer.items_initialized ≤ bi.items_initialized)
      (h2 : bi.items_initialized ≤ bi.capacity)
      (h3 : bi.capacity = b.initializer.capacity) :
      Reachable { b with initializer := bi }
  | step_revert_to_start (b : Buffer α) (hr : Reachable b) :
      Reachable { b with items_filled := 0 }

/-- The strengthened invariant carried through the induction: the cursor chain
plus the fact that the capacity is a valid `usize`. -/
def BufInv (b : Buffer α) : Prop :=
  b.items_filled ≤ b.initializer.items_initialized ∧
    b.initializer.items_initialized ≤ b.capacity ∧ b.capacity < USIZE

lemma append_some_fields (b : Buffer α) (s : List α) (c : Buffer α)
    (h : Buffer.append b s = some c) :
    c.items_filled = b.items_filled + s.length ∧
      c.initializer.items_initialized
        = max (b.items_filled + s.length) b.initializer.items_initialized ∧
      c.initializer.inner = b.appendWritten s ∧
      s.length ≤ wrappingSub b.initializer.all_uninit.length b.items_filled := by
  unfold Buffer.append at h
  split at h
  · next hg =>
    simp only [Option.some.injEq] at h
    subst h
    exact ⟨rfl, rfl, rfl, hg⟩
  · exact absurd h (by simp)

lemma fill_by_repeating_capacity (b : Buffer α) (item : α) :
    (Buffer.fill_by_repeating b item).capacity = b.capacity := by
  unfold Buffer.fill_by_repeating Buffer.assume_init_all Buffer.capacity
    BufferInitializer.capacity
  simp only [List.length_append, List.length_take, List.length_map, List.length_drop]
  omega

lemma reachable_bufInv (b : Buffer α) (h : Reachable b) : BufInv b := by
  induction h with
  | mk_uninit inner h =>
    exact ⟨Nat.le_refl 0, Nat.zero_le _, h⟩
  | mk_new s h =>
    refine ⟨Nat.zero_le _, Nat.le_refl _, ?_⟩
    show (castInitToUninitSlice s).length < USIZE
    unfold castInitToUninitSlice
    rw [List.length_map]
    exact h
  | mk_from_slice_mut s h =>
    refine ⟨Nat.zero_le _, Nat.le_refl _, ?_⟩
    show (castInitToUninitSlice s).length < USIZE
    unfold castInitToUninitSlice
    rw [List.length_map]
    exact h
  | mk_from_initializer bi h1 h2 =>
    exact ⟨Nat.zero_le _, h1, h2⟩
  | step_append b s c hr happ ih =>
    obtain ⟨i1, i2, i3⟩ := ih
    obtain ⟨hf, hi, hin, hg⟩ := append_some_fields b s c happ
    have hcapeq : b.initializer.all_uninit.length = b.capacity := rfl
    rw [hcapeq, wrappingSub_eq_sub (by omega) i3] at hg
    have hccap : c.capacity = b.capacity := by
      show c.initializer.inner.length = b.capacity
      rw [hin]
      unfold Buffer.appendWritten castInitToUninitSlice
      simp only [List.length_append, List.length_take, List.length_map, List.length_drop]
      have hbcap : b.initializer.inner.length = b.capacity := rfl
      omega
    refine ⟨?_, ?_, ?_⟩
    · rw [hf, hi]
      omega
    · rw [hi, hccap]
      omega
    · rw [hccap]
      exact i3
  | step_advance b n c hr hadv ih =>
    obtain ⟨i1, i2, i3⟩ := ih
    unfold Buffer.advance at hadv
    split at hadv
    · next hg =>
      rw [wrappingSub_eq_sub i1 (by omega)] at hg
      simp only [Option.some.injEq] at hadv
      subst hadv
      refine ⟨?_, i2, i3⟩
      show wrappingAdd b.items_filled n ≤ b.initializer.items_initialized
      rw [wrappingAdd_eq_add (by omega)]
      omega
    · exact absurd hadv (by simp)
  | step_advance_to_init_part b hr ih =>
    obtain ⟨i1, i2, i3⟩ := ih
    exact ⟨Nat.le_refl _, i2, i3⟩
  | step_assume_init b n hr hle ih =>
    obtain ⟨i1, i2, i3⟩ := ih
    refine ⟨Nat.le_max_left _ _, ?_, i3⟩
    show max (b.items_filled + n) b.initializer.items_initialized ≤ b.capacity
    omega
  | step_assume_init_all b hr ih =>
    obtain ⟨i1, i2, i3⟩ := ih
    exact ⟨Nat.le_refl _, Nat.le_refl _, i3⟩
  | step_fill_by_repeating b item hr ih =>
    obtain ⟨i1, i2, i3⟩ := ih
    refine ⟨Nat.le_refl _, Nat.le_refl _, ?_⟩
    rw [fill_by_repeating_capacity]
    exact i3
  | step_write b i v hr ih =>
    obtain ⟨i1, i2, i3⟩ := ih
    refine ⟨i1, ?_, ?_⟩
    · show b.initializer.items_initialized ≤ (b.initializer.inner.set i (some v)).length
      rw [List.length_set]
      exact i2
    · show (b.initializer.inner.set i (some v)).length < USIZE
      rw [List.length_set]
      exact i3
  | step_initializer_mut b bi hr h1 h2 h3 ih =>
    obtain ⟨i1, i2, i3⟩ := ih
    refine ⟨Nat.le_trans i1 h1, h2, ?_⟩
    show bi.capacity < USIZE
    rw [h3]
    exact i3
  | step_revert_to_start b hr ih =>
    obtain ⟨i1, i2, i3⟩ := ih
    exact ⟨Nat.zero_le _, i2, i3⟩

/-- C2: every buffer reachable from a freshly constructed buffer by a sequence
of public operations (with the documented preconditions of the unsafe
operations upheld) satisfies
`0 ≤ items_filled ≤ items_initialized ≤ capacity`. -/
theorem reachable_cursor_invariant (α : Type) (b : Buffer α) (h : Reachable b) :
    0 ≤ b.items_filled ∧ b.items_filled ≤ b.initializer.items_initialized ∧
      b.initializer.items_initialized ≤ b.capacity := by
  obtain ⟨i1, i2, _⟩ := reachable_bufInv b h
  exact ⟨Nat.zero_le _, i1, i2⟩

/-- Witness for C2 at a concrete reachable state: a fresh 1-slot uninitialized
buffer. -/
theorem reachable_cursor_invariant_witness :
    Reachable (Buffer.uninit [(none : Option Nat)]) ∧
      (0 ≤ (Buffer.uninit [(none : Option Nat)]).items_filled ∧
        (Buffer.uninit [(none : Option Nat)]).items_filled
          ≤ (Buffer.uninit [(none : Option Nat)]).initializer.items_initialized ∧
        (Buffer.uninit [(none : Option Nat)]).initializer.items_initialized
          ≤ (Buffer.uninit [(none : Option Nat)]).capacity) :=
  have hr : Reachable (Buffer.uninit [(none : Option Nat)]) :=
    Reachable.mk_uninit [(none : Option Nat)] (by decide)
  ⟨hr, reachable_cursor_invariant Nat (Buffer.uninit [(none : Option Nat)]) hr⟩

/-! ## C3: cursor values after construction -/

/-- Counterexample to C3 as stated: constructing with `new` from the
already-initialized one-item container `[0]` gives `items_filled() = 0`, not
`items_filled() = capacity() = 1`, because `Buffer::new` goes through
`Buffer::from_initializer`, which always sets `items_filled: 0`. -/
theorem new_items_filled_ne_capacity :
    ¬ ((Buffer.new [(0 : Nat)]).items_filled = (Buffer.new [(0 : Nat)]).capacity) := by
  decide

/-- C3 amended: `new` from an already-initialized container yields
`items_filled() = 0` and `items_initialized() = capacity()`, while `uninit`
yields `items_filled() = 0` and `items_initialized() = 0`. -/
theorem new_uninit_cursors (α : Type) (s : List α) (inner : List (Option α)) :
    (Buffer.new s).items_filled = 0 ∧
      (Buffer.new s).initializer.items_initialized = (Buffer.new s).capacity ∧
      (Buffer.uninit inner).items_filled = 0 ∧
      (Buffer.uninit inner).initializer.items_initialized = 0 :=
  ⟨rfl, rfl, rfl, rfl⟩

/-! ## C4: the concrete append-and-mutate scenario -/

/-- The byte string around which the scenario revolves:
`b"I am a really nice slice!"`, which is 25 bytes long. -/
def niceSlice : List Nat :=
  [73, 32, 97, 109, 32, 97, 32, 114, 101, 97, 108, 108, 121, 32,
    110, 105, 99, 101, 32, 115, 108, 105, 99, 101, 33]

/-- `b"I am a really wise slice!"`: `niceSlice` with byte 14 replaced by
`b'w'` (119) and byte 16 by `b's'` (115). -/
def wiseSlice : List Nat :=
  [73, 32, 97, 109, 32, 97, 32, 114, 101, 97, 108, 108, 121, 32,
    119, 105, 115, 101, 32, 115, 108, 105, 99, 101, 33]

/-- An uninitialized buffer of capacity 32, as in the scenario. -/
def buf32 : Buffer Nat := Buffer.uninit (List.replicate 32 none)

/-- Counterexample to C4 as stated: the appended string is 25 bytes, not 26,
so after the append `items_filled()` is 25, not 26 (and `remaining()` is 7,
not 6). -/
theorem append_scenario_items_filled_ne_26 :
    ¬ ((Buffer.append buf32 niceSlice).map Buffer.items_filled = some 26) := by
  decide

/-- C4 amended: appending the 25-byte string `"I am a really nice slice!"` to
an uninitialized capacity-32 buffer succeeds with `items_filled() = 25` and
`remaining() = 7`, and then writing `b'w'` at offset 14 and `b's'` at offset
16 of `filled_part_mut()` makes `filled_part()` read
`"I am a really wise slice!"`. -/
theorem append_scenario_amended :
    niceSlice.length = 25 ∧
      (Buffer.append buf32 niceSlice).map Buffer.items_filled = some 25 ∧
      (Buffer.append buf32 niceSlice).map Buffer.remaining = some 7 ∧
      (Buffer.append buf32 niceSlice).map
        (fun b => ((b.write_filled 14 119).write_filled 16 115).filled_part)
        = some wiseSlice := by
  refine ⟨by decide, by decide, by decide, by decide⟩

/-! ## C6: `append` beyond `remaining()` fails without a partial write -/

/-- C6: for every buffer state and every slice longer than `remaining()`,
`append` aborts (the model returns `none`): the `assert!` fires before any
cursor update or memory write, so the buffer is left exactly as it was — in
the model no post-state is produced at all. -/
theorem append_too_long_fails (α : Type) (b : Buffer α) (s : List α)
    (h : b.remaining < s.length) :
    Buffer.append b s = none := by
  have hr : wrappingSub b.initializer.all_uninit.length b.items_filled = b.remaining := rfl
  unfold Buffer.append
  refine if_neg ?_
  rw [hr]
  omega

/-- Witness for C6: appending 2 items to a 1-slot uninitialized buffer. -/
theorem append_too_long_fails_witness :
    (Buffer.uninit [(none : Option Nat)]).remaining < [1, 2].length ∧
      Buffer.append (Buffer.uninit [(none : Option Nat)]) [1, 2] = none :=
  ⟨by decide, append_too_long_fails Nat (Buffer.uninit [(none : Option Nat)]) [1, 2] (by decide)⟩

/-! ## C7: `advance` -/

/-- C7: for every buffer state satisfying the cursor invariant, `advance`
fails (aborts; `none` in the model) exactly when
`count > items_initialized - items_filled`, and on success it increases only
the filled cursor by `count`, leaving `items_initialized` and the whole
memory region unchanged. -/
theorem advance_spec (α : Type) (b : Buffer α) (count : Nat)
    (h1 : b.items_filled ≤ b.initializer.items_initialized)
    (h2 : b.initializer.items_initialized ≤ b.capacity)
    (h3 : b.capacity < USIZE) :
    (Buffer.advance b count = none ↔
      b.initializer.items_initialized - b.items_filled < count) ∧
    ∀ c, Buffer.advance b count = some c →
      c.items_filled = b.items_filled + count ∧
      c.initializer.items_initialized = b.initializer.items_initialized ∧
      c.initializer.inner = b.initializer.inner := by
  have hws : wrappingSub b.initializer.items_initialized b.items_filled
      = b.initializer.items_initialized - b.items_filled :=
    wrappingSub_eq_sub h1 (by omega)
  constructor
  · unfold Buffer.advance
    rw [hws]
    by_cases hcase : b.initializer.items_initialized - b.items_filled ≥ count
    · rw [if_pos hcase]
      constructor
      · intro hsome
        exact absurd hsome (by simp)
      · intro hlt
        exact absurd hlt (by omega)
    · rw [if_neg hcase]
      constructor
      · intro _
        omega
      · intro _
        rfl
  · intro c hc
    unfold Buffer.advance at hc
    rw [hws] at hc
    split at hc
    · next hg =>
      simp only [Option.some.injEq] at hc
      subst hc
      refine ⟨?_, rfl, rfl⟩
      show wrappingAdd b.items_filled count = b.items_filled + count
      exact wrappingAdd_eq_add (by omega)
    · exact absurd hc (by simp)

/-- A concrete fully-initialized 1-slot buffer used by witnesses. -/
def oneSlotBuf : Buffer Nat := Buffer.from_slice_mut [5]

/-- Witness for C7: a fully-initialized unfilled 1-slot buffer advanced
by 1. -/
theorem advance_spec_witness :
    (oneSlotBuf.items_filled ≤ oneSlotBuf.initializer.items_initialized ∧
      oneSlotBuf.initializer.items_initialized ≤ oneSlotBuf.capacity ∧
      oneSlotBuf.capacity < USIZE) ∧
    ((Buffer.advance oneSlotBuf 1 = none ↔
        oneSlotBuf.initializer.items_initialized - oneSlotBuf.items_filled < 1) ∧
      ∀ c, Buffer.advance oneSlotBuf 1 = some c →
        c.items_filled = oneSlotBuf.items_filled + 1 ∧
        c.initializer.items_initialized = oneSlotBuf.initializer.items_initialized ∧
        c.initializer.inner = oneSlotBuf.initializer.inner) :=
  ⟨⟨by decide, by decide, by decide⟩,
    advance_spec Nat oneSlotBuf 1 (by decide) (by decide) (by decide)⟩

/-! ## C8: the three-way partition returned by `all_parts` -/

lemma castUninitToInitSlice_take_add [Inhabited α] (l : List (Option α)) (m n : Nat) :
    castUninitToInitSlice (l.take m) ++ castUninitToInitSlice ((l.drop m).take n)
      = castUninitToInitSlice (l.take (m + n)) := by
  rw [← castUninitToInitSlice_append, ← List.take_add]

/-- C8: for every buffer state satisfying the cursor invariant, the three
views of `all_parts()` partition the region: their lengths are
`items_filled`, `items_initialized - items_filled` and
`capacity - items_initialized`, summing to `capacity`, and `filled_part`
followed by `unfilled_init_part` reproduces (the initialized reading of) the
first `items_initialized` slots of the region in order. -/
theorem all_parts_partition (α : Type) [Inhabited α] (b : Buffer α)
    (h1 : b.items_filled ≤ b.initializer.items_initialized)
    (h2 : b.initializer.items_initialized ≤ b.capacity)
    (h3 : b.capacity < USIZE) :
    (b.all_parts).filled_part.length = b.items_filled ∧
    (b.all_parts).unfilled_init_part.length
      = b.initializer.items_initialized - b.items_filled ∧
    (b.all_parts).unfilled_uninit_part.length
      = b.capacity - b.initializer.items_initialized ∧
    (b.all_parts).filled_part.length + (b.all_parts).unfilled_init_part.length
      + (b.all_parts).unfilled_uninit_part.length = b.capacity ∧
    (b.all_parts).filled_part ++ (b.all_parts).unfilled_init_part
      = castUninitToInitSlice
          (b.initializer.all_uninit.take b.initializer.items_initialized) := by
  have hlen : b.initializer.inner.length = b.capacity := rfl
  have hws : wrappingSub b.initializer.items_initialized b.items_filled
      = b.initializer.items_initialized - b.items_filled :=
    wrappingSub_eq_sub h1 (by omega)
  have hfp : (b.all_parts).filled_part.length = b.items_filled := by
    show (Buffer.filled_part b).length = b.items_filled
    unfold Buffer.filled_part BufferInitializer.all_uninit
    rw [castUninitToInitSlice_length, List.length_take]
    omega
  have hui : (b.all_parts).unfilled_init_part.length
      = b.initializer.items_initialized - b.items_filled := by
    show (Buffer.unfilled_init_part b).length = _
    unfold Buffer.unfilled_init_part BufferInitializer.all_uninit
    rw [castUninitToInitSlice_length, List.length_take, List.length_drop, hws]
    omega
  have huu : (b.all_parts).unfilled_uninit_part.length
      = b.capacity - b.initializer.items_initialized := by
    show (Buffer.unfilled_uninit_part b).length = _
    unfold Buffer.unfilled_uninit_part BufferInitializer.uninit_part
    rw [List.length_drop]
    omega
  refine ⟨hfp, hui, huu, by omega, ?_⟩
  show Buffer.filled_part b ++ Buffer.unfilled_init_part b = _
  unfold Buffer.filled_part Buffer.unfilled_init_part
  rw [hws, castUninitToInitSlice_take_add]
  have he : b.items_filled + (b.initializer.items_initialized - b.items_filled)
      = b.initializer.items_initialized := by omega
  rw [he]

/-- A concrete partially-filled, partially-initialized 3-slot buffer used by
witnesses. -/
def threeSlotBuf : Buffer Nat :=
  { initializer := { inner := [some 1, some 2, none], items_initialized := 2 }
    items_filled := 1 }

/-- Witness for C8: a 3-slot buffer with `items_filled = 1`,
`items_initialized = 2`. -/
theorem all_parts_partition_witness :
    (threeSlotBuf.items_filled ≤ threeSlotBuf.initializer.items_initialized ∧
      threeSlotBuf.initializer.items_initialized ≤ threeSlotBuf.capacity ∧
      threeSlotBuf.capacity < USIZE) ∧
    ((threeSlotBuf.all_parts).filled_part.length = threeSlotBuf.items_filled ∧
      (threeSlotBuf.all_parts).unfilled_init_part.length
        = threeSlotBuf.initializer.items_initialized - threeSlotBuf.items_filled ∧
      (threeSlotBuf.all_parts).unfilled_uninit_part.length
        = threeSlotBuf.capacity - threeSlotBuf.initializer.items_initialized ∧
      (threeSlotBuf.all_parts).filled_part.length
        + (threeSlotBuf.all_parts).unfilled_init_part.length
        + (threeSlotBuf.all_parts).unfilled_uninit_part.length = threeSlotBuf.capacity ∧
      (threeSlotBuf.all_parts).filled_part ++ (threeSlotBuf.all_parts).unfilled_init_part
        = castUninitToInitSlice
            (threeSlotBuf.initializer.all_uninit.take
              threeSlotBuf.initializer.items_initialized)) :=
  ⟨⟨by decide, by decide, by decide⟩,
    all_parts_partition Nat threeSlotBuf (by decide) (by decide) (by decide)⟩

/-! ## C9: immutable accessors are stable across repeated calls -/

/-- C9: calling any immutable accessor twice in a row with no intervening
mutation returns equal content both times.  In the embedding the `&self`
accessors are pure functions of the buffer state (they have no interior
mutability and mutate nothing), so the two calls coincide definitionally. -/
theorem accessor_repeat_stable (α : Type) [Inhabited α] (b : Buffer α) :
    b.filled_part = b.filled_part ∧
      b.unfilled_init_part = b.unfilled_init_part ∧
      b.unfilled_uninit_part = b.unfilled_uninit_part ∧
      b.all_parts = b.all_parts ∧
      b.items_filled = b.items_filled ∧
      b.remaining = b.remaining :=
  ⟨rfl, rfl, rfl, rfl, rfl, rfl⟩

/-! ## C10: `from_slice_mut` -/

/-- C10: for every slice `s` (of `usize` length), `from_slice_mut(s)` is fully
initialized but completely unfilled: `items_filled() = 0` (so `is_empty()`),
`items_initialized() = capacity() = s.len()`, the entire original content of
`s` is exposed through `unfilled_init_part()`, and `filled_part()` is empty. -/
theorem from_slice_mut_spec (α : Type) [Inhabited α] (s : List α)
    (h : s.length < USIZE) :
    (Buffer.from_slice_mut s).items_filled = 0 ∧
      (Buffer.from_slice_mut s).is_empty = true ∧
      (Buffer.from_slice_mut s).initializer.items_initialized
        = (Buffer.from_slice_mut s).capacity ∧
      (Buffer.from_slice_mut s).capacity = s.length ∧
      (Buffer.from_slice_mut s).unfilled_init_part = s ∧
      (Buffer.from_slice_mut s).filled_part = [] := by
  have hlen : (castInitToUninitSlice s).length = s.length := by
    unfold castInitToUninitSlice
    exact List.length_map s some
  refine ⟨rfl, rfl, rfl, hlen, ?_, rfl⟩
  show castUninitToInitSlice
      (((castInitToUninitSlice s).drop 0).take
        (wrappingSub (castInitToUninitSlice s).length 0)) = s
  have hws : wrappingSub (castInitToUninitSlice s).length 0 = s.length := by
    rw [hlen, wrappingSub_eq_sub (Nat.zero_le _) h]
    omega
  rw [hws, List.drop_zero, ← hlen, List.take_length,
    castUninitToInitSlice_castInitToUninitSlice]

/-- Witness for C10: the three-item slice `[1, 2, 3]`. -/
theorem from_slice_mut_spec_witness :
    ([1, 2, 3] : List Nat).length < USIZE ∧
      ((Buffer.from_slice_mut [1, 2, 3]).items_filled = 0 ∧
        (Buffer.from_slice_mut [1, 2, 3]).is_empty = true ∧
        (Buffer.from_slice_mut [1, 2, 3]).initializer.items_initialized
          = (Buffer.from_slice_mut ([1, 2, 3] : List Nat)).capacity ∧
        (Buffer.from_slice_mut ([1, 2, 3] : List Nat)).capacity = [1, 2, 3].length ∧
        (Buffer.from_slice_mut [1, 2, 3]).unfilled_init_part = [1, 2, 3] ∧
        (Buffer.from_slice_mut ([1, 2, 3] : List Nat)).filled_part = []) :=
  ⟨by decide, from_slice_mut_spec Nat [1, 2, 3] (by decide)⟩

/-- Witness for C5: the slices `[1, 2]` then `[3]`, of total length 3. -/
theorem append_sequence_correct_witness :
    totalLen ([[1, 2], [3]] : List (List Nat)) ≤ 32 ∧
      ((∃ c, Buffer.appendAll (Buffer.uninit (List.replicate 32 (none : Option Nat)))
            [[1, 2], [3]] = some c ∧
        c.filled_part = ([[1, 2], [3]] : List (List Nat)).flatten ∧
        c.items_filled = totalLen ([[1, 2], [3]] : List (List Nat)) ∧
        c.initializer.items_initialized = totalLen ([[1, 2], [3]] : List (List Nat)) ∧
        c.remaining = 32 - totalLen ([[1, 2], [3]] : List (List Nat))) ∧
      (∀ (b : Buffer Nat) (s : List Nat) (c : Buffer Nat),
        b.initializer.items_initialized = b.items_filled →
        Buffer.append b s = some c →
        c.items_filled = b.items_filled + s.length ∧
        c.initializer.items_initialized = b.initializer.items_initialized + s.length)) :=
  ⟨by decide, append_sequence_correct Nat [[1, 2], [3]] (by decide)⟩
